import Mathlib

/-
  Verification development for the voice-assisted job-description editor.

  The definitions below are a shallow embedding of the state-reconciliation
  core of the repository:
    - the document store and normalizer (stores/jd-atoms.ts:
      jobDescriptionAtom, updateJDAtom, bulkUpdateJDAtom),
    - the change detector (components/job-description-editor.tsx),
    - the reconciliation controller (hooks/use-voice-chat.ts:
      checkForUpdates, handleExtractionComplete, handleServerMessage,
      markEventReceived, the polling interval body),
    - the transcript log (hooks/use-voice-chat.ts: handleUserTranscript,
      handleBotTranscript).

  JavaScript strings are modelled by Lean String; the JavaScript helpers
  String.prototype.split and String.prototype.trim are re-implemented below
  on the character list (jsSplit, jsTrim) so that all definitions evaluate
  inside the kernel.  JavaScript objects with a fixed key set (the document)
  are modelled as total functions from an enumerated key type; partial
  objects (the raw update and the normalized patch) are modelled as
  association lists with string keys, where assignment replaces the value
  of an existing key in place (setKeyA), mirroring JavaScript property
  assignment and Object.entries ordering.
-/

namespace Sasha

/-- Raw values arriving from the extraction backend, mirroring the dynamic
shapes the bulk update inspects with typeof and Array.isArray: strings,
numbers, arrays, booleans, null and undefined. -/
inductive RawValue where
  | str (s : String)
  | num (n : Int)
  | arr (items : List RawValue)
  | bool (b : Bool)
  | null
  | undef

/-- Discriminator for the undefined raw value, modelling the
strict-inequality test against undefined. -/
def RawValue.isUndef : RawValue → Bool
  | .undef => true
  | _ => false

/-- Canonical values stored in the document: scalar text or a list of text
items, matching the JobDescription interface field types. -/
inductive Value where
  | str (s : String)
  | list (items : List String)
  deriving DecidableEq

/-- The fixed canonical key set of the JobDescription interface
(stores/jd-atoms.ts). -/
inductive CKey where
  | title | company | description | requirements | benefits | location
  | workArrangement | salaryRange | employmentType | experienceLevel
  | department | teamSize | technicalSkills | educationRequirements
  | growthOpportunities
  deriving DecidableEq

/-- The canonical key names, in the declaration order of the
JobDescription interface. -/
def canonicalKeys : List String :=
  ["title", "company", "description", "requirements", "benefits",
   "location", "workArrangement", "salaryRange", "employmentType",
   "experienceLevel", "department", "teamSize", "technicalSkills",
   "educationRequirements", "growthOpportunities"]

/-- The canonical keys as the enumerated type, in declaration order. -/
def ckeyList : List CKey :=
  [.title, .company, .description, .requirements, .benefits, .location,
   .workArrangement, .salaryRange, .employmentType, .experienceLevel,
   .department, .teamSize, .technicalSkills, .educationRequirements,
   .growthOpportunities]

/-- Resolve a canonical key name to the enumerated key. -/
def keyOfString (k : String) : Option CKey :=
  if k = "title" then some .title
  else if k = "company" then some .company
  else if k = "description" then some .description
  else if k = "requirements" then some .requirements
  else if k = "benefits" then some .benefits
  else if k = "location" then some .location
  else if k = "workArrangement" then some .workArrangement
  else if k = "salaryRange" then some .salaryRange
  else if k = "employmentType" then some .employmentType
  else if k = "experienceLevel" then some .experienceLevel
  else if k = "department" then some .department
  else if k = "teamSize" then some .teamSize
  else if k = "technicalSkills" then some .technicalSkills
  else if k = "educationRequirements" then some .educationRequirements
  else if k = "growthOpportunities" then some .growthOpportunities
  else none

/-- The document: a total mapping from canonical keys to values,
modelling the JobDescription object held by jobDescriptionAtom. -/
def Doc : Type := CKey → Value

/-- The initial document of jobDescriptionAtom: every scalar field is the
empty string except employmentType, which starts as Full-time; every list
field is empty. -/
def initialJD : Doc := fun k =>
  match k with
  | .requirements => .list []
  | .benefits => .list []
  | .technicalSkills => .list []
  | .employmentType => .str "Full-time"
  | _ => .str ""

/-- Overwrite a single key of the document, modelling one property of an
object spread. -/
def setKey (d : Doc) (k : CKey) (v : Value) : Doc :=
  fun q => if q = k then v else d q

/-- Apply one patch entry to the document: overwrite the resolved
canonical key, or leave the document untouched when the key does not
resolve. -/
def applyStep (d : Doc) (e : String × Value) : Doc :=
  match keyOfString e.1 with
  | some k => setKey d k e.2
  | none => d

/-- Merge a patch into the document, modelling the object spread of
current with validUpdates: later entries overwrite earlier ones. -/
def applyPatch (d : Doc) (patch : List (String × Value)) : Doc :=
  patch.foldl applyStep d

/- JavaScript string helpers. -/

/-- Auxiliary splitter over the character list: cuts at every character
satisfying the predicate, keeping empty segments, exactly like the
JavaScript split with a single-character class. -/
def jsSplitAux (p : Char → Bool) : List Char → List Char → List (List Char)
  | [], acc => [acc.reverse]
  | c :: rest, acc =>
      if p c then acc.reverse :: jsSplitAux p rest []
      else jsSplitAux p rest (c :: acc)

/-- JavaScript String.prototype.split with a single-character separator
class: cuts at every matching character, keeping empty segments; the empty
string yields the singleton list of the empty string. -/
def jsSplit (p : Char → Bool) (s : String) : List String :=
  (jsSplitAux p s.toList []).map fun cs => String.mk cs

/-- JavaScript String.prototype.trim: drop whitespace from both ends. -/
def jsTrim (s : String) : String :=
  String.mk (((s.toList.dropWhile Char.isWhitespace).reverse.dropWhile
    Char.isWhitespace).reverse)

/- The normalizer inside bulkUpdateJDAtom (stores/jd-atoms.ts). -/

/-- Separator class of the comma re-split in bulkUpdateJDAtom: comma,
semicolon or bullet character. -/
def isListSep (c : Char) : Bool :=
  c = ',' || c = ';' || c = '•'

/-- Newline split of bulkUpdateJDAtom for requirements and benefits:
split on newlines and drop segments that are blank after trimming. -/
def newlineItems (s : String) : List String :=
  (jsSplit (fun c => c = '\n') s).filter fun i => jsTrim i ≠ ""

/-- String-to-list coercion for requirements and benefits in
bulkUpdateJDAtom: split on newlines and drop segments that are blank after
trimming; if exactly one non-blank segment remains, re-split it on
comma, semicolon or bullet, trimming each piece and dropping empty ones. -/
def splitListString (s : String) : List String :=
  if (newlineItems s).length = 1 ∧ (newlineItems s).headD "" ≠ "" then
    ((jsSplit isListSep ((newlineItems s).headD "")).map jsTrim).filter
      fun i => i ≠ ""
  else newlineItems s

/-- Array coercion for list fields in bulkUpdateJDAtom: keep only the
elements that are truthy strings, that is, non-empty strings. -/
def keepStrings (items : List RawValue) : List String :=
  items.filterMap fun v =>
    match v with
    | .str s => if s ≠ "" then some s else none
    | _ => none

/-- Per-entry coercion of bulkUpdateJDAtom, branch for branch: list
targets take arrays filtered to non-empty strings; a string for
technicalSkills is wrapped as a one-element array; a string for
requirements or benefits is split; a number for teamSize is stringified;
any other string goes to a scalar target unchanged; everything else is
dropped with a logged warning (none). -/
def coerceValue (targetField : String) (value : RawValue) : Option Value :=
  match value with
  | .arr l =>
      if targetField = "requirements" ∨ targetField = "benefits" ∨
          targetField = "technicalSkills" then
        some (.list (keepStrings l))
      else none
  | .str s =>
      if targetField = "technicalSkills" then some (.list [s])
      else if targetField = "requirements" ∨ targetField = "benefits" then
        some (.list (splitListString s))
      else some (.str s)
  | .num n =>
      if targetField = "teamSize" then some (.str (toString n)) else none
  | _ => none

/-- The static alias table of bulkUpdateJDAtom in its declaration order:
the front-end names mapped to themselves first, then the snake_case
back-end names mapped to their canonical targets. -/
def fieldMapping : List (String × String) :=
  [("title", "title"), ("company", "company"),
   ("description", "description"), ("requirements", "requirements"),
   ("benefits", "benefits"), ("location", "location"),
   ("workArrangement", "workArrangement"), ("salaryRange", "salaryRange"),
   ("employmentType", "employmentType"),
   ("experienceLevel", "experienceLevel"), ("department", "department"),
   ("teamSize", "teamSize"), ("technicalSkills", "technicalSkills"),
   ("educationRequirements", "educationRequirements"),
   ("growthOpportunities", "growthOpportunities"),
   ("job_title", "title"), ("company_name", "company"),
   ("responsibilities", "description"),
   ("required_qualifications", "requirements"),
   ("preferred_qualifications", "benefits"),
   ("work_arrangement", "workArrangement"),
   ("salary_range", "salaryRange"), ("employment_type", "employmentType"),
   ("experience_level", "experienceLevel"), ("team_size", "teamSize"),
   ("technical_skills", "technicalSkills"),
   ("education_requirements", "educationRequirements"),
   ("growth_opportunities", "growthOpportunities")]

/-- Look up a raw field in the incoming update object. -/
def lookupRaw (data : List (String × RawValue)) (k : String) :
    Option RawValue :=
  (data.find? fun e => e.1 = k).map fun e => e.2

/-- Object property assignment on a patch: replace the value of an
existing key in place, otherwise append, mirroring insertion-ordered
JavaScript objects. -/
def setKeyA : List (String × Value) → String → Value → List (String × Value)
  | [], k, v => [(k, v)]
  | e :: rest, k, v =>
      if e.1 = k then (k, v) :: rest else e :: setKeyA rest k v

/-- One iteration of the bulkUpdateJDAtom loop for an alias-table entry:
when the source field is present in the incoming data with a defined
value, assign the coerced value to the target field, dropping the field
when coercion fails. -/
def vuStep (data : List (String × RawValue)) (acc : List (String × Value))
    (e : String × String) : List (String × Value) :=
  match lookupRaw data e.1 with
  | some v =>
      if v.isUndef then acc
      else
        match coerceValue e.2 v with
        | some val => setKeyA acc e.2 val
        | none => acc
  | none => acc

/-- The validUpdates object built by bulkUpdateJDAtom: walk the alias
table in declaration order, assigning each coerced source field to its
target field. -/
def validUpdates (data : List (String × RawValue)) : List (String × Value) :=
  fieldMapping.foldl (vuStep data) []

/-- The write of bulkUpdateJDAtom: spread validUpdates over the current
document when it is non-empty, otherwise leave the document unchanged
(with a logged warning). -/
def bulkUpdateJD (d : Doc) (data : List (String × RawValue)) : Doc :=
  if validUpdates data ≠ [] then applyPatch d (validUpdates data) else d

/- The direct update path (updateJDAtom) used by user edits. -/

/-- The write of updateJDAtom: spread the given partial updates over the
current document. -/
def updateJD (d : Doc) (updates : List (CKey × Value)) : Doc :=
  updates.foldl (fun acc e => setKey acc e.1 e.2) d

/-- handleInputChange of the editor: route one field through
updateJDAtom. -/
def handleInputChange (d : Doc) (field : CKey) (value : Value) : Doc :=
  updateJD d [(field, value)]

/-- The newline-only split used by the editor for its list textareas
(handleRequirementsChange, handleBenefitsChange,
handleTechnicalSkillsChange): split on newlines, drop blank segments,
trim the rest. -/
def editorSplit (s : String) : List String :=
  ((jsSplit (fun c => c = '\n') s).filter fun i => jsTrim i ≠ "").map jsTrim

/-- handleRequirementsChange of the editor. -/
def handleRequirementsChange (d : Doc) (s : String) : Doc :=
  handleInputChange d .requirements (.list (editorSplit s))

/- The change detector of the editor (job-description-editor.tsx): the
effect that compares the previous document with the current one and
collects the fields to highlight. -/

/-- Content test of the change detector: a scalar has content when it is
non-blank after trimming; a list has content when it is non-empty. -/
def hasContent : Value → Bool
  | .str s => jsTrim s ≠ ""
  | .list l => l ≠ []

/-- Per-field change test of the detector: the serialized values must
differ, the current value must have content, and either the previous
value had no content or the values differ. Value inequality stands in
for both the JSON.stringify comparison and the reference comparison,
since distinct references are implied by distinct values. -/
def fieldChanged (previous current : Doc) (k : CKey) : Bool :=
  if current k ≠ previous k then
    hasContent (current k) &&
      (!hasContent (previous k) || decide (current k ≠ previous k))
  else false

/-- The updatedFields set collected by the detector, walking the document
keys in declaration order. -/
def updatedFields (previous current : Doc) : List CKey :=
  ckeyList.filter (fieldChanged previous current)

/- The reconciliation controller (use-voice-chat.ts). -/

/-- The response of the status endpoint as the controller reads it:
success stands for the conjunction of the transport-level ok flag and the
success field of the body; hasNewExtraction and extractionCounter are the
body fields (a missing counter reads as zero). -/
structure Status where
  success : Bool
  hasNewExtraction : Bool
  extractionCounter : Nat
  deriving DecidableEq

/-- One smart-polling tick (checkForUpdates): when the status call
succeeds and either hasNewExtraction is set or the reported counter
exceeds the stored one, issue a full-document fetch; when that fetch
succeeds (fetchOk), store the reported counter. Returns whether a fetch
was issued together with the new stored counter. -/
def checkForUpdates (lastExtractionCounter : Nat) (s : Status)
    (fetchOk : Bool) : Bool × Nat :=
  if s.success then
    let currentCounter := s.extractionCounter
    if s.hasNewExtraction || currentCounter > lastExtractionCounter then
      if fetchOk then (true, currentCounter)
      else (true, lastExtractionCounter)
    else (false, lastExtractionCounter)
  else (false, lastExtractionCounter)

/-- Run a sequence of poll ticks from a stored counter, counting the
full-document fetches issued. -/
def pollRun (lastExtractionCounter : Nat) (ticks : List (Status × Bool)) :
    Nat × Nat :=
  ticks.foldl (fun acc t =>
    let r := checkForUpdates acc.2 t.1 t.2
    (acc.1 + (if r.1 then 1 else 0), r.2)) (0, lastExtractionCounter)

/-- The push-event handler (handleExtractionComplete): re-check the
status endpoint and, when it succeeds with hasNewExtraction set, fetch
the full document and merge it through bulkUpdateJDAtom; no extraction
counter is compared or stored. Returns whether a fetch was issued
together with the resulting document. -/
def handleExtractionComplete (d : Doc) (s : Status) (fetchOk : Bool)
    (fetchedData : List (String × RawValue)) : Bool × Doc :=
  if s.success && s.hasNewExtraction then
    (true, if fetchOk then bulkUpdateJD d fetchedData else d)
  else (false, d)

/-- The mutable closure state of the smart-polling effect: the one-way
eventsReceived flag together with the shared document. -/
structure Ctrl where
  eventsReceived : Bool
  doc : Doc

/-- The initial controller state: no push event observed yet, document in
its initial state. -/
def initCtrl : Ctrl := { eventsReceived := false, doc := initialJD }

/-- markEventReceived of the smart-polling effect: set the one-way
eventsReceived flag (a no-op once it is set). The source defines this
closure with a comment saying it will be called from handleServerMessage,
but no call site exists anywhere in the repository. -/
def markEventReceived (st : Ctrl) : Ctrl :=
  if !st.eventsReceived then { st with eventsReceived := true } else st

/-- The serverMessage dispatcher (handleServerMessage): an
extraction-complete message runs the push-event handler, a
jd-data-update message merges the carried data through bulkUpdateJDAtom,
anything else is logged and ignored. No branch touches the
eventsReceived flag. -/
def handleServerMessage (st : Ctrl) (messageType : String) (s : Status)
    (fetchOk : Bool) (data : List (String × RawValue)) : Ctrl :=
  if messageType = "extraction-complete" then
    { st with doc := (handleExtractionComplete st.doc s fetchOk data).2 }
  else if messageType = "jd-data-update" then
    { st with doc := bulkUpdateJD st.doc data }
  else st

/-- One server message as dequeued by the event loop: its type, the
status response its handler would observe, the fetch outcome, and the
carried or fetched data. -/
structure ServerMsg where
  messageType : String
  status : Status
  fetchOk : Bool
  data : List (String × RawValue)

/-- Process a sequence of server messages. -/
def runServerMessages (st : Ctrl) (msgs : List ServerMsg) : Ctrl :=
  msgs.foldl (fun acc m =>
    handleServerMessage acc m.messageType m.status m.fetchOk m.data) st

/-- The interval body of the smart poller: the tick body runs on every
tick while eventsReceived is false, and otherwise only when the random
draw falls below the 20 percent threshold. -/
def pollTickExecutes (eventsReceived : Bool) (randomBelowTwentyPct : Bool) :
    Bool :=
  if !eventsReceived then true else randomBelowTwentyPct

/- The transcript log (handleUserTranscript and handleBotTranscript in
use-voice-chat.ts). -/

/-- Roles of transcript entries. -/
inductive Role where
  | user
  | assistant
  deriving DecidableEq

/-- The transcript state: the retained messages in arrival order plus the
two per-role dedup registers lastUserTranscript and lastBotTranscript. -/
structure ChatState where
  messages : List (Role × String)
  lastUserTranscript : String
  lastBotTranscript : String
  deriving DecidableEq

/-- The initial transcript state. -/
def initChat : ChatState :=
  { messages := [], lastUserTranscript := "", lastBotTranscript := "" }

/-- handleUserTranscript: when the raw text is truthy and non-blank, trim
it and append it as a user entry unless it equals the last retained user
text; the dedup register is updated only on append. -/
def handleUserTranscript (st : ChatState) (raw : String) : ChatState :=
  if raw ≠ "" ∧ jsTrim raw ≠ "" then
    let text := jsTrim raw
    if text ≠ st.lastUserTranscript ∧ text ≠ "" then
      { st with messages := st.messages ++ [(.user, text)],
                lastUserTranscript := text }
    else st
  else st

/-- handleBotTranscript: when the raw text is truthy, trim it and append
it as an assistant entry unless it is blank or equals the last retained
assistant text; the dedup register is updated only on append. -/
def handleBotTranscript (st : ChatState) (raw : String) : ChatState :=
  if raw ≠ "" then
    let text := jsTrim raw
    if text ≠ st.lastBotTranscript ∧ text ≠ "" then
      { st with messages := st.messages ++ [(.assistant, text)],
                lastBotTranscript := text }
    else st
  else st

/-- Dispatch one transcript event by role. -/
def chatStep (st : ChatState) (e : Role × String) : ChatState :=
  match e.1 with
  | .user => handleUserTranscript st e.2
  | .assistant => handleBotTranscript st e.2

/-- Process a sequence of transcript events. -/
def chatRun (st : ChatState) (evs : List (Role × String)) : ChatState :=
  evs.foldl chatStep st

/- Derived vocabulary used by the statements below. -/

/-- The snake_case back-end aliases of the alias table, paired with their
canonical targets, in their declaration order within fieldMapping. -/
def backendAliases : List (String × String) :=
  [("job_title", "title"), ("company_name", "company"),
   ("responsibilities", "description"),
   ("required_qualifications", "requirements"),
   ("preferred_qualifications", "benefits"),
   ("work_arrangement", "workArrangement"),
   ("salary_range", "salaryRange"), ("employment_type", "employmentType"),
   ("experience_level", "experienceLevel"), ("team_size", "teamSize"),
   ("technical_skills", "technicalSkills"),
   ("education_requirements", "educationRequirements"),
   ("growth_opportunities", "growthOpportunities")]

/-- The canonical keys of list kind. -/
def listFieldNames : List String :=
  ["requirements", "benefits", "technicalSkills"]

/-- The canonical keys of scalar kind. -/
def scalarFieldNames : List String :=
  ["title", "company", "description", "location", "workArrangement",
   "salaryRange", "employmentType", "experienceLevel", "department",
   "teamSize", "educationRequirements", "growthOpportunities"]

/-- Read a field of a patch object by key. -/
def lookupA (patch : List (String × Value)) (k : String) : Option Value :=
  (patch.find? fun e => e.1 = k).map fun e => e.2

/-- The last value a patch assigns to a canonical key, if any. -/
def lastAssign (p : List (String × Value)) (k : CKey) : Option Value :=
  p.foldl (fun acc e =>
    if keyOfString e.1 = some k then some e.2 else acc) none

/- Helper lemmas about the merge operation. -/

theorem lastAssign_fold_some (k : CKey) :
    ∀ (p : List (String × Value)) (a : Value),
    p.foldl (fun acc e =>
      if keyOfString e.1 = some k then some e.2 else acc) (some a)
      = some ((lastAssign p k).getD a) := by
  intro p
  induction p with
  | nil => intro a; simp [lastAssign]
  | cons x rest ih =>
      intro a
      by_cases hx : keyOfString x.1 = some k
      · simp only [lastAssign, List.foldl_cons, if_pos hx]
        rw [ih x.2]
        simp
      · simp only [lastAssign, List.foldl_cons, if_neg hx]
        rw [ih a]
        simp [lastAssign]

theorem applyPatch_apply (p : List (String × Value)) :
    ∀ (d : Doc) (k : CKey),
    applyPatch d p k = (lastAssign p k).getD (d k) := by
  induction p with
  | nil => intro d k; simp [applyPatch, lastAssign]
  | cons x rest ih =>
      intro d k
      have h1 : applyPatch d (x :: rest) = applyPatch (applyStep d x) rest :=
        rfl
      rw [h1, ih]
      by_cases hx : keyOfString x.1 = some k
      · have h2 : lastAssign (x :: rest) k
            = some ((lastAssign rest k).getD x.2) := by
          simp only [lastAssign, List.foldl_cons, if_pos hx]
          exact lastAssign_fold_some k rest x.2
        have h3 : applyStep d x k = x.2 := by
          simp [applyStep, hx, setKey]
        rw [h2, h3]
        simp
      · have h2 : lastAssign (x :: rest) k = lastAssign rest k := by
          simp only [lastAssign, List.foldl_cons, if_neg hx]
        have h3 : applyStep d x k = d k := by
          unfold applyStep
          cases hk : keyOfString x.1 with
          | none => rfl
          | some k2 =>
              have hne : k ≠ k2 := by
                intro he
                exact hx (by rw [hk, he])
              simp [setKey, hne]
        rw [h2, h3]

theorem applyPatch_idem (d : Doc) (p : List (String × Value)) :
    applyPatch (applyPatch d p) p = applyPatch d p := by
  funext k
  rw [applyPatch_apply p (applyPatch d p) k, applyPatch_apply p d k]
  cases hL : lastAssign p k <;> simp

theorem updatedFields_self (x : Doc) : updatedFields x x = [] := by
  simp [updatedFields, fieldChanged]

/- Helper lemmas about the normalizer. -/

theorem mem_setKeyA :
    ∀ (m : List (String × Value)) (k : String) (v : Value)
      (e : String × Value), e ∈ setKeyA m k v → e = (k, v) ∨ e ∈ m := by
  intro m k v
  induction m with
  | nil =>
      intro e h
      simp [setKeyA] at h
      exact Or.inl h
  | cons x rest ih =>
      intro e h
      rw [setKeyA] at h
      by_cases hx : x.1 = k
      · rw [if_pos hx] at h
        rcases List.mem_cons.mp h with h1 | h2
        · exact Or.inl h1
        · exact Or.inr (List.mem_cons_of_mem _ h2)
      · rw [if_neg hx] at h
        rcases List.mem_cons.mp h with h1 | h2
        · exact Or.inr (h1 ▸ List.mem_cons_self x rest)
        · rcases ih e h2 with h3 | h4
          · exact Or.inl h3
          · exact Or.inr (List.mem_cons_of_mem _ h4)

theorem mem_splitListString_ne (s x : String) (h : x ∈ splitListString s) :
    x ≠ "" := by
  unfold splitListString at h
  split at h
  · have h2 := (List.mem_filter.mp h).2
    simpa using h2
  · rw [newlineItems] at h
    have h2 := (List.mem_filter.mp h).2
    intro hx
    rw [hx] at h2
    simp [jsTrim] at h2

theorem mem_keepStrings_ne (l : List RawValue) (x : String)
    (h : x ∈ keepStrings l) : x ≠ "" := by
  unfold keepStrings at h
  rcases List.mem_filterMap.mp h with ⟨v, _, hf⟩
  cases v with
  | str s =>
      dsimp only at hf
      by_cases hs : s ≠ ""
      · rw [if_pos hs] at hf
        exact (Option.some_inj.mp hf) ▸ hs
      · rw [if_neg hs] at hf
        exact absurd hf (by simp)
  | num n => simp at hf
  | arr l2 => simp at hf
  | bool b => simp at hf
  | null => simp at hf
  | undef => simp at hf

/-- Shape invariant of one coerced value: a scalar target receives a
string; a list target receives a list whose elements are all non-empty,
except that technicalSkills may receive a wrapped singleton. -/
def shapeOk (t : String) (val : Value) : Prop :=
  (t ∉ listFieldNames → ∃ s, val = Value.str s) ∧
  (t ∈ listFieldNames → ∃ l, val = Value.list l ∧
    ((∀ x ∈ l, x ≠ "") ∨ (t = "technicalSkills" ∧ ∃ s, l = [s])))

theorem coerceValue_shape (t : String) (v : RawValue) (val : Value)
    (h : coerceValue t v = some val) : shapeOk t val := by
  cases v with
  | arr l =>
      rw [coerceValue] at h
      split at h
      · have hval : val = Value.list (keepStrings l) :=
          (Option.some_inj.mp h).symm
        constructor
        · intro hnot
          exact absurd (by simp [listFieldNames]; tauto) hnot
        · intro _
          exact ⟨keepStrings l, hval,
            Or.inl fun x hx => mem_keepStrings_ne l x hx⟩
      · exact absurd h (by simp)
  | str s =>
      rw [coerceValue] at h
      by_cases h1 : t = "technicalSkills"
      · rw [if_pos h1] at h
        have hval : val = Value.list [s] := (Option.some_inj.mp h).symm
        constructor
        · intro hnot
          exact absurd (by simp [listFieldNames, h1]) hnot
        · intro _
          exact ⟨[s], hval, Or.inr ⟨h1, s, rfl⟩⟩
      · rw [if_neg h1] at h
        by_cases h2 : t = "requirements" ∨ t = "benefits"
        · rw [if_pos h2] at h
          have hval : val = Value.list (splitListString s) :=
            (Option.some_inj.mp h).symm
          constructor
          · intro hnot
            exact absurd (by simp [listFieldNames]; tauto) hnot
          · intro _
            exact ⟨splitListString s, hval,
              Or.inl fun x hx => mem_splitListString_ne s x hx⟩
        · rw [if_neg h2] at h
          have hval : val = Value.str s := (Option.some_inj.mp h).symm
          constructor
          · intro _
            exact ⟨s, hval⟩
          · intro hmem
            simp [listFieldNames] at hmem
            tauto
  | num n =>
      rw [coerceValue] at h
      split at h
      · next h1 =>
          have hval : val = Value.str (toString n) :=
            (Option.some_inj.mp h).symm
          constructor
          · intro _
            exact ⟨toString n, hval⟩
          · intro hmem
            rw [h1] at hmem
            simp [listFieldNames] at hmem
      · exact absurd h (by simp)
  | bool b => exact absurd h (by simp [coerceValue])
  | null => exact absurd h (by simp [coerceValue])
  | undef => exact absurd h (by simp [coerceValue])

theorem validUpdates_fold_invariant (data : List (String × RawValue)) :
    ∀ (fm : List (String × String)) (acc : List (String × Value)),
    (∀ e ∈ acc, e.1 ∈ canonicalKeys ∧ shapeOk e.1 e.2) →
    (∀ p ∈ fm, p.2 ∈ canonicalKeys) →
    ∀ e ∈ fm.foldl (vuStep data) acc,
      e.1 ∈ canonicalKeys ∧ shapeOk e.1 e.2 := by
  intro fm
  induction fm with
  | nil => intro acc hacc _ e he; exact hacc e he
  | cons p rest ih =>
      intro acc hacc hfm e he
      rw [List.foldl_cons] at he
      refine ih (vuStep data acc p) ?_ (fun q hq => hfm q (by simp [hq])) e he
      intro e2 he2
      rw [vuStep] at he2
      split at he2
      · next v hv =>
          split at he2
          · exact hacc e2 he2
          · split at he2
            · next val hval =>
                rcases mem_setKeyA acc p.2 val e2 he2 with h1 | h2
                · rw [h1]
                  exact ⟨hfm p (by simp), coerceValue_shape p.2 v val hval⟩
                · exact hacc e2 h2
            · exact hacc e2 he2
      · exact hacc e2 he2

/- Claim theorems. -/

/-- Claim C4 (confirmed): for every document state and every normalized
patch, applying the patch twice in a row yields the same document as
applying it once, and the change detector reports an empty changed-key
set on the re-application; the same holds for the full
bulkUpdateJDAtom write driven by raw data. -/
theorem patch_application_idempotent (d : Doc) (p : List (String × Value))
    (data : List (String × RawValue)) :
    applyPatch (applyPatch d p) p = applyPatch d p ∧
    updatedFields (applyPatch d p) (applyPatch (applyPatch d p) p) = [] ∧
    bulkUpdateJD (bulkUpdateJD d data) data = bulkUpdateJD d data ∧
    updatedFields (bulkUpdateJD d data)
      (bulkUpdateJD (bulkUpdateJD d data) data) = [] := by
  have h1 := applyPatch_idem d p
  by_cases hv : validUpdates data = []
  · refine ⟨h1, ?_, ?_, ?_⟩
    · rw [h1]; exact updatedFields_self _
    · simp [bulkUpdateJD, hv]
    · simp [bulkUpdateJD, hv, updatedFields_self]
  · have h2 : bulkUpdateJD d data = applyPatch d (validUpdates data) := by
      simp [bulkUpdateJD, hv]
    have h3 : bulkUpdateJD (bulkUpdateJD d data) data
        = bulkUpdateJD d data := by
      rw [h2]
      simp [bulkUpdateJD, hv, applyPatch_idem]
    refine ⟨h1, ?_, h3, ?_⟩
    · rw [h1]; exact updatedFields_self _
    · rw [h3]; exact updatedFields_self _

/-- Claim C9, counterexample: a string-valued technicalSkills update is
wrapped as a singleton list, so the empty raw string produces a patch
whose list value contains the empty string, violating the claimed
invariant that every list value contains only non-empty strings. -/
theorem technicalSkills_empty_string_cex :
    validUpdates [("technicalSkills", RawValue.str "")]
      = [("technicalSkills", Value.list [""])] ∧
    ¬ (∀ x ∈ [("" : String)], x ≠ "") := by
  refine ⟨by decide, by decide⟩

/-- Claim C9 (corrected): every patch the normalizer produces maps only
canonical keys; scalar-kind keys carry strings and list-kind keys carry
lists whose elements are all non-empty, except that a technicalSkills
value may be a wrapped singleton (which can contain the empty string
when the raw value was the empty string). -/
theorem validUpdates_keyset_closure (data : List (String × RawValue))
    (k : String) (v : Value) (h : (k, v) ∈ validUpdates data) :
    k ∈ canonicalKeys ∧
    (k ∉ listFieldNames → ∃ s, v = Value.str s) ∧
    (k ∈ listFieldNames → ∃ l, v = Value.list l ∧
      ((∀ x ∈ l, x ≠ "") ∨ (k = "technicalSkills" ∧ ∃ s, l = [s]))) := by
  have hmain := validUpdates_fold_invariant data fieldMapping []
    (by intro e he; simp at he)
    (by decide) (k, v) h
  exact ⟨hmain.1, hmain.2.1, hmain.2.2⟩

/-- Witness for the key-set closure theorem at a concrete back-end
update. -/
theorem validUpdates_keyset_closure_witness :
    (("title", Value.str "Engineer")
      ∈ validUpdates [("job_title", RawValue.str "Engineer")]) ∧
    ("title" ∈ canonicalKeys ∧
    ("title" ∉ listFieldNames → ∃ s, Value.str "Engineer" = Value.str s) ∧
    ("title" ∈ listFieldNames → ∃ l, Value.str "Engineer" = Value.list l ∧
      ((∀ x ∈ l, x ≠ "") ∨
        ("title" = "technicalSkills" ∧ ∃ s, l = [s])))) :=
  ⟨by decide, validUpdates_keyset_closure
    [("job_title", RawValue.str "Engineer")] "title"
    (Value.str "Engineer") (by decide)⟩

/-- Claim C1, counterexample: two consecutive status responses carrying
the same counter value 5 but with the hasNewExtraction flag set both
times make the poller fetch twice; the second fetch targets a counter it
has already consumed. -/
theorem pollRun_refetches_consumed_counter_cex :
    pollRun 0 [((⟨true, true, 5⟩ : Status), true)] = (1, 5) ∧
    pollRun 0 [((⟨true, true, 5⟩ : Status), true),
               ((⟨true, true, 5⟩ : Status), true)] = (2, 5) := by
  refine ⟨by decide, by decide⟩

/-- Claim C1 (corrected): when status responses carry
hasNewExtraction equal to false, a poll tick issues a fetch only when
the reported counter strictly exceeds the stored one, and after a tick
whose fetch succeeded, replaying the identical status response issues no
further fetch — so feeding the same counter value twice triggers at most
one fetch. -/
theorem checkForUpdates_cursor_monotone (last : Nat) (s : Status)
    (f2 : Bool) (h : s.hasNewExtraction = false) :
    ((checkForUpdates last s true).1 = true →
      s.extractionCounter > last) ∧
    (checkForUpdates (checkForUpdates last s true).2 s f2).1 = false := by
  cases hs : s.success with
  | false => simp [checkForUpdates, hs]
  | true =>
      by_cases hc : s.extractionCounter > last
      · simp [checkForUpdates, hs, h, hc]
      · simp [checkForUpdates, hs, h, hc]

/-- Witness for the corrected cursor-monotonicity theorem. -/
theorem checkForUpdates_cursor_monotone_witness :
    ((checkForUpdates 0 (⟨true, false, 5⟩ : Status) true).1 = true →
      Status.extractionCounter (⟨true, false, 5⟩ : Status) > 0) ∧
    (checkForUpdates
      (checkForUpdates 0 (⟨true, false, 5⟩ : Status) true).2
      (⟨true, false, 5⟩ : Status) true).1 = false :=
  checkForUpdates_cursor_monotone 0 (⟨true, false, 5⟩ : Status) true rfl

/-- Claim C2, counterexample: on a status response with
hasNewExtraction false and a counter far beyond the stored one, a poll
tick fetches but the push-event handler does not — the push handler does
not perform the poll tick's cursor comparison. -/
theorem push_handler_not_same_comparison_cex :
    (handleExtractionComplete initialJD (⟨true, false, 10⟩ : Status)
      true []).1 = false ∧
    (checkForUpdates 0 (⟨true, false, 10⟩ : Status) true).1 = true := by
  refine ⟨by decide, by decide⟩

/-- Claim C2 (corrected): the push-event handler re-checks the status
endpoint and gates its fetch on the hasNewExtraction flag alone, never
on the extraction counter; a stale push event whose status response
reports hasNewExtraction false issues no fetch and leaves the document
unchanged. -/
theorem push_stale_event_noop (d : Doc) (s : Status) (fetchOk : Bool)
    (data : List (String × RawValue)) (h : s.hasNewExtraction = false) :
    handleExtractionComplete d s fetchOk data = (false, d) := by
  simp [handleExtractionComplete, h]

/-- Witness for the stale-push no-op theorem. -/
theorem push_stale_event_noop_witness :
    handleExtractionComplete initialJD (⟨true, false, 10⟩ : Status)
      true [] = (false, initialJD) :=
  push_stale_event_noop initialJD (⟨true, false, 10⟩ : Status)
    true [] rfl

/-- Preservation lemma: no branch of the serverMessage dispatcher writes
the eventsReceived flag. -/
theorem handleServerMessage_preserves_flag (st : Ctrl) (t : String)
    (s : Status) (f : Bool) (data : List (String × RawValue)) :
    (handleServerMessage st t s f data).eventsReceived
      = st.eventsReceived := by
  rw [handleServerMessage]
  split
  · rfl
  · split
    · rfl
    · rfl

/-- Claim C3 (code_bug): the source defines markEventReceived, the
one-way healthy flag setter, with a comment saying it will be called
from handleServerMessage, but no call site exists; consequently after
any sequence of received server messages the eventsReceived flag is
still false and every poll tick executes its body regardless of the
random draw, instead of the documented 20 percent throttling. -/
theorem eventsReceived_never_set (msgs : List ServerMsg) (r : Bool) :
    (runServerMessages initCtrl msgs).eventsReceived = false ∧
    pollTickExecutes
      (runServerMessages initCtrl msgs).eventsReceived r = true ∧
    (markEventReceived initCtrl).eventsReceived = true := by
  have hrun : ∀ (ms : List ServerMsg) (st : Ctrl),
      (runServerMessages st ms).eventsReceived = st.eventsReceived := by
    intro ms
    induction ms with
    | nil => intro st; rfl
    | cons m rest ih =>
        intro st
        have h1 : runServerMessages st (m :: rest)
            = runServerMessages
              (handleServerMessage st m.messageType m.status m.fetchOk
                m.data) rest := rfl
        rw [h1, ih, handleServerMessage_preserves_flag]
  have hflag : (runServerMessages initCtrl msgs).eventsReceived = false :=
    hrun msgs initCtrl
  refine ⟨hflag, ?_, rfl⟩
  rw [hflag]
  rfl

/-- Claim C5, counterexample: the editor routes a requirements edit
through its own newline-only split and updateJDAtom, so the raw text
a comma b yields a one-element list, while the same raw value sent
through the normalize-and-merge path of bulkUpdateJDAtom is re-split on
the comma into two elements — the two paths are not the same. -/
theorem user_edit_bypasses_normalizer_cex :
    (handleRequirementsChange initialJD "a,b") CKey.requirements
      = Value.list ["a,b"] ∧
    (bulkUpdateJD initialJD [("requirements", RawValue.str "a,b")])
      CKey.requirements = Value.list ["a", "b"] ∧
    Value.list ["a,b"] ≠ Value.list ["a", "b"] := by
  refine ⟨by decide, by decide, by decide⟩

/-- Claim C5 (corrected): user edits are routed through updateJDAtom, a
direct per-key overwrite that bypasses the normalizer, while remote
updates go through bulkUpdateJDAtom; both sources resolve conflicting
writes to the same key by last write wins — whichever write lands last
determines the stored value, regardless of source and in either order,
shown here for a scalar key and a list key. -/
theorem last_write_wins_per_key (d : Doc) (s1 s2 : String)
    (l : List String) :
    (handleInputChange (bulkUpdateJD d [("title", RawValue.str s1)])
      CKey.title (Value.str s2)) CKey.title = Value.str s2 ∧
    (bulkUpdateJD (handleInputChange d CKey.title (Value.str s2))
      [("title", RawValue.str s1)]) CKey.title = Value.str s1 ∧
    (handleInputChange (bulkUpdateJD d [("requirements", RawValue.str s1)])
      CKey.requirements (Value.list l)) CKey.requirements = Value.list l ∧
    (bulkUpdateJD (handleRequirementsChange d s2)
      [("requirements", RawValue.str s1)]) CKey.requirements
      = Value.list (splitListString s1) := by
  exact ⟨rfl, rfl, rfl, rfl⟩

/-- Claim C6, counterexample: a numeric raw value for the scalar key
title is dropped from the patch with a logged warning instead of being
stringified. -/
theorem scalar_number_dropped_cex :
    validUpdates [("title", RawValue.num 42)] = [] ∧
    lookupA (validUpdates [("title", RawValue.num 42)]) "title" = none := by
  refine ⟨by decide, by decide⟩

/-- Claim C6 (corrected): only the scalar key teamSize converts a
numeric raw value to its string form and includes it in the patch; every
other scalar-kind key drops a numeric raw value with a logged warning,
and a raw value that is neither a string nor a number is dropped for
scalar-kind keys as well. -/
theorem teamSize_only_number_stringified (n : Int) (b : Bool)
    (name : String) (hmem : name ∈ scalarFieldNames)
    (hne : name ≠ "teamSize") :
    validUpdates [(name, RawValue.num n)] = [] ∧
    validUpdates [("teamSize", RawValue.num n)]
      = [("teamSize", Value.str (toString n))] ∧
    validUpdates [(name, RawValue.bool b)] = [] := by
  fin_cases hmem <;> first
    | exact absurd rfl hne
    | exact ⟨rfl, rfl, rfl⟩

/-- Witness for the teamSize stringification theorem. -/
theorem teamSize_only_number_stringified_witness :
    validUpdates [("company", RawValue.num 7)] = [] ∧
    validUpdates [("teamSize", RawValue.num 7)]
      = [("teamSize", Value.str (toString (7 : Int)))] ∧
    validUpdates [("company", RawValue.bool true)] = [] :=
  teamSize_only_number_stringified 7 true "company" (by decide) (by decide)

/-- Claim C7, counterexample: the list-kind key technicalSkills wraps a
raw string as a one-element list instead of splitting it, so the comma
example does not yield the three-element list there. -/
theorem technicalSkills_string_not_split_cex :
    validUpdates
      [("technicalSkills", RawValue.str "React, Node.js; Docker")]
      = [("technicalSkills", Value.list ["React, Node.js; Docker"])] ∧
    Value.list ["React, Node.js; Docker"]
      ≠ Value.list ["React", "Node.js", "Docker"] := by
  refine ⟨by decide, by decide⟩

/-- Claim C7 (corrected): for the list-kind keys requirements and
benefits, normalizing the newline example yields the three-element list,
and normalizing the comma example (no newlines) yields the same list;
the list-kind key technicalSkills instead wraps any raw string as the
one-element list containing it. -/
theorem list_normalization_examples :
    validUpdates [("requirements", RawValue.str "React\nNode.js\n\nDocker")]
      = [("requirements", Value.list ["React", "Node.js", "Docker"])] ∧
    validUpdates [("requirements", RawValue.str "React, Node.js; Docker")]
      = [("requirements", Value.list ["React", "Node.js", "Docker"])] ∧
    validUpdates [("benefits", RawValue.str "React\nNode.js\n\nDocker")]
      = [("benefits", Value.list ["React", "Node.js", "Docker"])] ∧
    validUpdates [("benefits", RawValue.str "React, Node.js; Docker")]
      = [("benefits", Value.list ["React", "Node.js", "Docker"])] ∧
    (∀ s : String, validUpdates [("technicalSkills", RawValue.str s)]
      = [("technicalSkills", Value.list [s])]) := by
  refine ⟨by decide, by decide, by decide, by decide, fun s => rfl⟩

/-- Claim C8 (confirmed): a transcript event whose trimmed text equals
the last retained text of the same role is rejected without mutating the
state, so replaying any transcript event immediately is a no-op; in
particular two consecutive identical user appends retain one entry while
the same text from user then assistant retains two. -/
theorem transcript_dedup :
    (∀ (st : ChatState) (e : Role × String),
      chatStep (chatStep st e) e = chatStep st e) ∧
    (chatRun initChat
      [(Role.user, "hello"), (Role.user, "hello")]).messages
      = [(Role.user, "hello")] ∧
    (chatRun initChat
      [(Role.user, "hello"), (Role.assistant, "hello")]).messages
      = [(Role.user, "hello"), (Role.assistant, "hello")] := by
  refine ⟨?_, by decide, by decide⟩
  intro st e
  obtain ⟨role, raw⟩ := e
  cases role with
  | user =>
      show handleUserTranscript (handleUserTranscript st raw) raw
        = handleUserTranscript st raw
      by_cases h1 : raw ≠ "" ∧ jsTrim raw ≠ ""
      · by_cases h2 : jsTrim raw ≠ st.lastUserTranscript ∧ jsTrim raw ≠ ""
        · have hstep : handleUserTranscript st raw =
            { st with
              messages := st.messages ++ [(Role.user, jsTrim raw)],
              lastUserTranscript := jsTrim raw } := by
            simp [handleUserTranscript, h1, h2]
          rw [hstep]
          simp [handleUserTranscript, h1]
        · have hA : jsTrim raw = st.lastUserTranscript := by
            by_contra hA
            exact h2 ⟨hA, h1.2⟩
          have hstep : handleUserTranscript st raw = st := by
            simp [handleUserTranscript, h1, hA]
          rw [hstep]
          exact hstep
      · have hstep : handleUserTranscript st raw = st := by
          simp [handleUserTranscript, h1]
        rw [hstep]
        exact hstep
  | assistant =>
      show handleBotTranscript (handleBotTranscript st raw) raw
        = handleBotTranscript st raw
      by_cases h1 : raw ≠ ""
      · by_cases h2 : jsTrim raw ≠ st.lastBotTranscript ∧ jsTrim raw ≠ ""
        · have hstep : handleBotTranscript st raw =
            { st with
              messages := st.messages ++ [(Role.assistant, jsTrim raw)],
              lastBotTranscript := jsTrim raw } := by
            simp [handleBotTranscript, h1, h2]
          rw [hstep]
          simp [handleBotTranscript, h1]
        · by_cases h3 : jsTrim raw = ""
          · have hstep : handleBotTranscript st raw = st := by
              simp [handleBotTranscript, h1, h3]
            rw [hstep]
            exact hstep
          · have hA : jsTrim raw = st.lastBotTranscript := by
              by_contra hA
              exact h2 ⟨hA, h3⟩
            have hstep : handleBotTranscript st raw = st := by
              simp [handleBotTranscript, h1, hA]
            rw [hstep]
            exact hstep
      · have hstep : handleBotTranscript st raw = st := by
          simp [handleBotTranscript, h1]
        rw [hstep]
        exact hstep

/-- Claim C10 (confirmed): when an incoming update carries both the
canonical front-end name and its snake_case back-end alias, the loop
over the alias table visits the front-end entry first and the alias
entry later, so the later assignment overwrites the earlier one and the
value supplied under the back-end alias ends up in the patch. -/
theorem backend_alias_overwrites (v1 v2 : String) (src tgt : String)
    (h : (src, tgt) ∈ backendAliases) :
    lookupA (validUpdates [(tgt, RawValue.str v1), (src, RawValue.str v2)])
      tgt = coerceValue tgt (RawValue.str v2) := by
  fin_cases h <;> rfl

/-- Witness for the alias overwrite theorem at the pair title and
job_title. -/
theorem backend_alias_overwrites_witness :
    lookupA (validUpdates
      [("title", RawValue.str "A"), ("job_title", RawValue.str "B")])
      "title" = coerceValue "title" (RawValue.str "B") :=
  backend_alias_overwrites "A" "B" "job_title" "title" (by decide)

end Sasha
